import Mathlib

set_option allowUnsafeReducibility true

attribute [semireducible] Rat.add Rat.mul Rat.sub Rat.inv Rat.ofScientific

/-
Verification of the derivative-checking engine (GradientChecker) of this
repository.  The engine itself (gradient_checker.h / gradient_checker.cc)
is not among the provided source files; only its test suite
(internal/ceres/gradient_checker_test.cc) is.  The engine is therefore
modelled from the specification, over exact rational arithmetic.
Matrices are lists of rows, vectors are lists of rationals.  The C++
buffer discipline (every output buffer has a fixed, caller-declared
shape) is modelled by fitting every produced matrix and vector to its
declared shape.
-/

namespace GradCheck

/-- A matrix, stored as a list of rows of rationals. -/
abbrev Mat := List (List ℚ)

/-- The all-zero vector of length `n`. -/
def zeroVec (n : ℕ) : List ℚ := List.replicate n 0

/-- The all-zero `r × c` matrix. -/
def zeroMat (r c : ℕ) : Mat := List.replicate r (zeroVec c)

/-- Read a vector through a fixed-length buffer of length `n`
(missing entries read as 0, extra entries are dropped).  This models the
C++ convention that every residual/Jacobian buffer has a fixed size. -/
def fitVec (n : ℕ) (v : List ℚ) : List ℚ :=
  (List.range n).map (fun i => v.getD i 0)

/-- Read a matrix through a fixed-shape `r × c` buffer. -/
def fitMat (r c : ℕ) (A : Mat) : Mat :=
  (List.range r).map (fun i => fitVec c (A.getD i []))

/-- Dot product of two vectors (zipped, so extra entries are ignored). -/
def dot (u v : List ℚ) : ℚ := (List.zipWith (· * ·) u v).sum

/-- Column `j` of a matrix. -/
def colOf (B : Mat) (j : ℕ) : List ℚ := B.map (fun row => row.getD j 0)

/-- Matrix product with an explicit output column count `w`. -/
def matMulW (w : ℕ) (A B : Mat) : Mat :=
  A.map (fun r => (List.range w).map (fun j => dot r (colOf B j)))

/-- Matrix product; the output column count is the length of the first
row of `B` (the column count of any rectangular `B`). -/
def matMul (A B : Mat) : Mat := matMulW (B.headD []).length A B

/-- Modelled from the spec: the Manifold interface consumed by the
checker (`ambient_size`, `tangent_size`, `plus`, `plus_jacobian`).  The
repository's manifold implementation is not among the source files. -/
structure Manifold where
  ambientSize : ℕ
  tangentSize : ℕ
  plus : List ℚ → List ℚ → List ℚ
  plusJacobian : List ℚ → Mat

/-- Modelled from the spec: the Evaluator interface (a cost function
with fixed parameter-block sizes and residual dimension, whose
`evaluate` returns success together with residuals and per-block ambient
Jacobians).  Failure is modelled by `none`. -/
structure CostFunction where
  blockSizes : List ℕ
  residualDim : ℕ
  eval : List (List ℚ) → Option (List ℚ × List Mat)

/-- Modelled from the spec: the numeric-differentiation options record
(relative step scale and absolute step floor); the default central
difference scheme is modelled. -/
structure NumericDiffOptions where
  relativeStep : ℚ
  minStep : ℚ

/-- The residual part of an evaluation (what numeric differentiation
consumes: perturbed evaluations request residuals only). -/
def evalResiduals (cf : CostFunction) (p : List (List ℚ)) : Option (List ℚ) :=
  (cf.eval p).map Prod.fst

/-- The manifold attached to block `b` (a missing slot means none). -/
def manifoldAt (manifolds : List (Option Manifold)) (b : ℕ) : Option Manifold :=
  manifolds.getD b none

/-- Tangent dimension of block `b` under an optional manifold: the
manifold's tangent size when present, otherwise the block's ambient
size. -/
def tangentDim (cf : CostFunction) (m? : Option Manifold) (b : ℕ) : ℕ :=
  match m? with
  | some m => m.tangentSize
  | none => cf.blockSizes.getD b 0

/-- Tangent size of block `b`: the manifold's tangent size when the
block has a manifold, otherwise its ambient size. -/
def tangentSizeAt (cf : CostFunction) (manifolds : List (Option Manifold)) (b : ℕ) : ℕ :=
  tangentDim cf (manifoldAt manifolds b) b

/-- Modelled from the spec: apply a tangent perturbation to a block via
the manifold's `plus`, or by coordinate-wise addition when the block has
no manifold. -/
def blockPlus (m? : Option Manifold) (x δ : List ℚ) : List ℚ :=
  match m? with
  | some m => m.plus x δ
  | none => List.zipWith (· + ·) x δ

/-- The length-`n` vector that is `h` at index `i` and 0 elsewhere. -/
def basisVec (n i : ℕ) (h : ℚ) : List ℚ :=
  (List.range n).map (fun j => if j = i then h else 0)

/-- Modelled from the spec: per-component step size,
`step = max(relative_step * |x_i|, absolute_min_step)`. -/
def stepSize (o : NumericDiffOptions) (x : ℚ) : ℚ :=
  max (o.relativeStep * |x|) o.minStep

/-- Modelled from the spec: one central-difference column.  Tangent
coordinate `i` of block `b` is perturbed by `±h` through `blockPlus`;
the two perturbed residual vectors are differenced and divided by `2h`.
`none` when either perturbed evaluation fails. -/
def numericColumn (cf : CostFunction) (params : List (List ℚ)) (b : ℕ)
    (m? : Option Manifold) (tsize : ℕ) (o : NumericDiffOptions) (i : ℕ) :
    Option (List ℚ) :=
  let x := params.getD b []
  let h := stepSize o (x.getD i 0)
  match evalResiduals cf (params.set b (blockPlus m? x (basisVec tsize i h))),
        evalResiduals cf (params.set b (blockPlus m? x (basisVec tsize i (-h)))) with
  | some rp, some rm =>
      some ((List.zipWith (· - ·) (fitVec cf.residualDim rp)
              (fitVec cf.residualDim rm)).map (fun d => d / (2 * h)))
  | _, _ => none

/-- Assemble a matrix with `rdim` rows from a list of columns. -/
def colsToRows (rdim : ℕ) (cols : List (List ℚ)) : Mat :=
  (List.range rdim).map (fun r => cols.map (fun c => c.getD r 0))

/-- Collect a list of optional values, failing when any is missing. -/
def allSome {α : Type} : List (Option α) → Option (List α)
  | [] => some []
  | none :: _ => none
  | some a :: tl => (allSome tl).map (a :: ·)

/-- Modelled from the spec: the NumericDifferentiator for one block.
All tangent columns are estimated by central differences; the result is
the block's local numeric Jacobian (`residualDim × tangent size`), or
`none` when some perturbed evaluation fails. -/
def numericBlockJacobian (cf : CostFunction) (params : List (List ℚ)) (b : ℕ)
    (m? : Option Manifold) (o : NumericDiffOptions) : Option Mat :=
  (allSome ((List.range (tangentDim cf m? b)).map
    (numericColumn cf params b m? (tangentDim cf m? b) o))).map
    (colsToRows cf.residualDim)

/-- The local numeric Jacobians of all blocks, or `none` when any
perturbed evaluation fails. -/
def numericLocalJacobians (cf : CostFunction) (manifolds : List (Option Manifold))
    (params : List (List ℚ)) (o : NumericDiffOptions) : Option (List Mat) :=
  allSome ((List.range cf.blockSizes.length).map
    (fun b => numericBlockJacobian cf params b (manifoldAt manifolds b) o))

/-- The ambient numeric Jacobian of one block: the differentiator run
with the identity update.  Pure bookkeeping, so a failed column set is
recorded as a zero matrix of the declared shape. -/
def numericAmbientJacobian (cf : CostFunction) (params : List (List ℚ)) (b : ℕ)
    (o : NumericDiffOptions) : Mat :=
  match numericBlockJacobian cf params b none o with
  | some N => N
  | none => zeroMat cf.residualDim (cf.blockSizes.getD b 0)

/-- The ambient numeric Jacobians of all blocks. -/
def numericAmbientJacobians (cf : CostFunction) (params : List (List ℚ))
    (o : NumericDiffOptions) : List Mat :=
  (List.range cf.blockSizes.length).map (fun b => numericAmbientJacobian cf params b o)

/-- Modelled from the spec: the ManifoldProjector.
`project(J, manifold, x) = J * plus_jacobian(x)` (the manifold's
Jacobian is read through its declared `ambient × tangent` buffer), and
the identity when the block has no manifold. -/
def project (m? : Option Manifold) (x : List ℚ) (J : Mat) : Mat :=
  match m? with
  | some m => matMulW m.tangentSize J (fitMat m.ambientSize m.tangentSize (m.plusJacobian x))
  | none => J

/-- The analytic ambient Jacobian of block `b`, read through its
declared buffer. -/
def analyticAmbientAt (cf : CostFunction) (jacs : List Mat) (b : ℕ) : Mat :=
  fitMat cf.residualDim (cf.blockSizes.getD b 0) (jacs.getD b [])

/-- The stored list of analytic ambient Jacobians, one per block. -/
def analyticAmbients (cf : CostFunction) (jacs : List Mat) : List Mat :=
  (List.range cf.blockSizes.length).map (analyticAmbientAt cf jacs)

/-- The local analytic Jacobian of block `b`: its ambient analytic
Jacobian projected through the block's manifold. -/
def analyticLocalAt (cf : CostFunction) (manifolds : List (Option Manifold))
    (params : List (List ℚ)) (jacs : List Mat) (b : ℕ) : Mat :=
  project (manifoldAt manifolds b) (params.getD b []) (analyticAmbientAt cf jacs b)

/-- The stored list of local analytic Jacobians, one per block. -/
def analyticLocals (cf : CostFunction) (manifolds : List (Option Manifold))
    (params : List (List ℚ)) (jacs : List Mat) : List Mat :=
  (List.range cf.blockSizes.length).map (analyticLocalAt cf manifolds params jacs)

/-- Modelled from the spec: per-element relative error,
`|analytic - numeric| / max(|numeric|, 1)`. -/
def relErr (a n : ℚ) : ℚ := |a - n| / max |n| 1

/-- Maximum of a list of rationals, with 0 for the empty list. -/
def maxList (l : List ℚ) : ℚ := l.foldr max 0

/-- Worst per-element relative error between two equally shaped
matrices. -/
def matErr (A N : Mat) : ℚ :=
  maxList (List.zipWith (fun ra rn => maxList (List.zipWith relErr ra rn)) A N)

/-- Per-block worst relative errors. -/
def blockErrs (locals numLoc : List Mat) : List ℚ := List.zipWith matErr locals numLoc

/-- Worst relative error over all blocks. -/
def maxRelError (locals numLoc : List Mat) : ℚ := maxList (blockErrs locals numLoc)

/-- Diagnostic message for a failing block. -/
def blockMessage (b : ℕ) : String :=
  "Jacobian for block " ++ toString b ++ " does not match the derivative estimate."

/-- Modelled from the spec: the aggregated diagnostic log (one line per
flagged block; a block is flagged when its worst relative error exceeds
the tolerance). -/
def buildLog (tol : ℚ) (errs : List ℚ) : List String :=
  (List.range errs.length).filterMap
    (fun b => if tol < errs.getD b 0 then some (blockMessage b) else none)

/-- Modelled from the spec: the ProbeResults record populated by each
probe.  `error_log` is modelled as the list of log lines. -/
structure ProbeResults where
  return_value : Bool
  residuals : List ℚ
  jacobians : List Mat
  numeric_jacobians : List Mat
  local_jacobians : List Mat
  local_numeric_jacobians : List Mat
  maximum_relative_error : ℚ
  error_log : List String

/-- Zero-filled ambient Jacobian list of the declared shapes. -/
def zeroAmbientList (cf : CostFunction) : List Mat :=
  (List.range cf.blockSizes.length).map
    (fun b => zeroMat cf.residualDim (cf.blockSizes.getD b 0))

/-- Zero-filled local Jacobian list of the declared shapes. -/
def zeroLocalList (cf : CostFunction) (manifolds : List (Option Manifold)) : List Mat :=
  (List.range cf.blockSizes.length).map
    (fun b => zeroMat cf.residualDim (tangentSizeAt cf manifolds b))

/-- Modelled from the spec: the results record produced when the
evaluator fails at the base point: `success = false`, zero-filled
matrices of the declared shapes, zero maximum error, and a log line
stating that evaluation failed. -/
def evalFailureResults (cf : CostFunction) (manifolds : List (Option Manifold)) :
    ProbeResults :=
  { return_value := false
    residuals := zeroVec cf.residualDim
    jacobians := zeroAmbientList cf
    numeric_jacobians := zeroAmbientList cf
    local_jacobians := zeroLocalList cf manifolds
    local_numeric_jacobians := zeroLocalList cf manifolds
    maximum_relative_error := 0
    error_log := ["Function evaluation failed."] }

/-- Modelled from the spec: one full probe (the ProbeEngine).  Evaluate
the function once at the base point; on failure return false with the
evaluation-failure record.  Otherwise project the analytic Jacobians to
local space, compute local numeric Jacobians by central differences (on
a perturbed-evaluation failure return false with a log line), store all
four matrix families, aggregate the per-block errors, and return
`max_error ≤ tolerance` together with the populated record. -/
def probe (cf : CostFunction) (manifolds : List (Option Manifold))
    (params : List (List ℚ)) (tol : ℚ) (o : NumericDiffOptions) :
    Bool × ProbeResults :=
  match cf.eval params with
  | none => (false, evalFailureResults cf manifolds)
  | some (r, jacs) =>
    let residuals := fitVec cf.residualDim r
    let ambient := analyticAmbients cf jacs
    let locals := analyticLocals cf manifolds params jacs
    match numericLocalJacobians cf manifolds params o with
    | none =>
        (false,
         { return_value := true
           residuals := residuals
           jacobians := ambient
           numeric_jacobians := zeroAmbientList cf
           local_jacobians := locals
           local_numeric_jacobians := zeroLocalList cf manifolds
           maximum_relative_error := 0
           error_log := ["Numerical differentiation failed."] })
    | some numLoc =>
        let errs := blockErrs locals numLoc
        (decide (maxList errs ≤ tol),
         { return_value := true
           residuals := residuals
           jacobians := ambient
           numeric_jacobians := numericAmbientJacobians cf params o
           local_jacobians := locals
           local_numeric_jacobians := numLoc
           maximum_relative_error := maxList errs
           error_log := buildLog tol errs })

/-- Modelled from the spec: the probe with the results sink omitted.
All matrix bookkeeping is skipped; only the comparison pipeline runs. -/
def probeNoResults (cf : CostFunction) (manifolds : List (Option Manifold))
    (params : List (List ℚ)) (tol : ℚ) (o : NumericDiffOptions) : Bool :=
  match cf.eval params with
  | none => false
  | some (_, jacs) =>
    match numericLocalJacobians cf manifolds params o with
    | none => false
    | some numLoc =>
        decide (maxRelError (analyticLocals cf manifolds params jacs) numLoc ≤ tol)

/-- Block `b` passes the comparison: its local analytic Jacobian exists
(the evaluator succeeded), its local numeric Jacobian was computed, and
their worst per-element relative error is within the tolerance. -/
def blockAgrees (cf : CostFunction) (manifolds : List (Option Manifold))
    (params : List (List ℚ)) (o : NumericDiffOptions) (tol : ℚ) (b : ℕ) : Prop :=
  ∃ J N, (cf.eval params).map (fun rj => analyticLocalAt cf manifolds params rj.2 b) = some J ∧
    numericBlockJacobian cf params b (manifoldAt manifolds b) o = some N ∧
    matErr J N ≤ tol

/-- Shape predicate: `A` has exactly `r` rows, each of length `c`. -/
def matShape (r c : ℕ) (A : Mat) : Prop :=
  A.length = r ∧ ∀ row ∈ A, row.length = c

/-- An always-failing evaluator with one parameter block of size 1. -/
def cfFailing : CostFunction :=
  { blockSizes := [1], residualDim := 1, eval := fun _ => none }

/-- A concrete linear evaluator with two blocks (sizes 2 and 1),
residual `2 x0 + 3 x1 + 5 y0`, and exact analytic Jacobians. -/
def cfLin : CostFunction :=
  { blockSizes := [2, 1]
    residualDim := 1
    eval := fun p =>
      let x0 := (p.getD 0 []).getD 0 0
      let x1 := (p.getD 0 []).getD 1 0
      let y0 := (p.getD 1 []).getD 0 0
      some ([2 * x0 + 3 * x1 + 5 * y0], [[[2, 3]], [[5]]]) }

/-- A concrete manifold of ambient size 2 and tangent size 1 whose
update adds the tangent coordinate to both ambient coordinates. -/
def mLin : Manifold :=
  { ambientSize := 2
    tangentSize := 1
    plus := fun x d => [x.getD 0 0 + d.getD 0 0, x.getD 1 0 + d.getD 0 0]
    plusJacobian := fun _ => [[1], [1]] }

/-- Manifold list for `cfLin`: a manifold on block 0, none on block 1. -/
def msLin : List (Option Manifold) := [some mLin, none]

/-- Concrete parameter point for `cfLin`. -/
def pLin : List (List ℚ) := [[1, 1], [1]]

/-- Concrete numeric-differentiation options with unit steps. -/
def oLin : NumericDiffOptions := ⟨0, 1⟩

/-- The linear evaluator with a constant offset of 1 added to every
analytic Jacobian entry (the residuals are untouched). -/
def cfLinOff : CostFunction :=
  { blockSizes := [2, 1]
    residualDim := 1
    eval := fun p =>
      let x0 := (p.getD 0 []).getD 0 0
      let x1 := (p.getD 0 []).getD 1 0
      let y0 := (p.getD 1 []).getD 0 0
      some ([2 * x0 + 3 * x1 + 5 * y0], [[[3, 4]], [[6]]]) }

/-- A concrete cubic evaluator, residual `x^3`, whose analytic Jacobian
carries a constant error offset of `10^-12` over the true derivative
`3 x^2`. -/
def cfCubic : CostFunction :=
  { blockSizes := [1]
    residualDim := 1
    eval := fun p =>
      let x := (p.getD 0 []).getD 0 0
      some ([x * x * x], [[[3 * x * x + 1 / 1000000000000]]]) }

/-- Options for the cubic evaluator: relative step `10^-3`, step floor
`10^-6`. -/
def oCubic : NumericDiffOptions := ⟨1 / 1000, 1 / 1000000⟩

/-- A manifold of ambient size 2 and tangent size 1 whose
`plus_jacobian` row at ambient index 1 is zero. -/
def mMask : Manifold :=
  { ambientSize := 2
    tangentSize := 1
    plus := fun x d => [x.getD 0 0 + d.getD 0 0, x.getD 1 0]
    plusJacobian := fun _ => [[1], [0]] }

/-- A linear evaluator of one block of size 2, residual `x0`, with the
correct analytic Jacobian. -/
def cfMask : CostFunction :=
  { blockSizes := [2]
    residualDim := 1
    eval := fun p => some ([(p.getD 0 []).getD 0 0], [[[1, 0]]]) }

/-- The same evaluator with an analytic error confined to ambient
coordinate 1 of block 0. -/
def cfMaskBad : CostFunction :=
  { blockSizes := [2]
    residualDim := 1
    eval := fun p => some ([(p.getD 0 []).getD 0 0], [[[1, 5]]]) }

/-- Concrete parameter point for the masking example. -/
def pMask : List (List ℚ) := [[0, 0]]

lemma getD_range_map {α : Type} (f : ℕ → α) (d : α) {n b : ℕ} (hb : b < n) :
    ((List.range n).map f).getD b d = f b := by
  rw [List.getD_eq_getElem?_getD, List.getElem?_map, List.getElem?_range hb]
  rfl

lemma getD_map_some {α : Type} (L : List α) (d : α) {b : ℕ} (hb : b < L.length) :
    (L.map some).getD b none = some (L.getD b d) := by
  rw [List.getD_eq_getElem?_getD, List.getElem?_map, List.getElem?_eq_getElem hb,
    List.getD_eq_getElem?_getD, List.getElem?_eq_getElem hb]
  rfl

lemma maxList_le_iff {l : List ℚ} {t : ℚ} :
    maxList l ≤ t ↔ 0 ≤ t ∧ ∀ x ∈ l, x ≤ t := by
  induction l with
  | nil => simp [maxList]
  | cons a l ih =>
    show max a (maxList l) ≤ t ↔ _
    rw [max_le_iff, ih]
    constructor
    · rintro ⟨h1, h0, h2⟩
      refine ⟨h0, fun x hx => ?_⟩
      rcases List.mem_cons.mp hx with h | h
      · exact h ▸ h1
      · exact h2 x h
    · rintro ⟨h0, h⟩
      exact ⟨h a (List.mem_cons_self a l), h0, fun x hx => h x (List.mem_cons_of_mem a hx)⟩

lemma allSome_eq_some_iff {α : Type} {l : List (Option α)} {L : List α} :
    allSome l = some L ↔ l = L.map some := by
  induction l generalizing L with
  | nil => cases L <;> simp [allSome]
  | cons o tl ih =>
    cases o with
    | none => cases L <;> simp [allSome]
    | some a =>
      cases L with
      | nil => simp [allSome]
      | cons b L' =>
        simp only [allSome, Option.map_eq_some', ih, List.map_cons, List.cons.injEq,
          Option.some.injEq]
        constructor
        · rintro ⟨Lt, h1, h2, h3⟩
          exact ⟨h2, h3 ▸ h1⟩
        · rintro ⟨h1, h2⟩
          exact ⟨L', h2, h1, rfl⟩

lemma allSome_eq_none_iff {α : Type} {l : List (Option α)} :
    allSome l = none ↔ none ∈ l := by
  induction l with
  | nil => simp [allSome]
  | cons o tl ih => cases o <;> simp [allSome, ih]

lemma zipWith_range_map {α β γ : Type} {n : ℕ} (f : ℕ → α) (g : α → β → γ)
    (L : List β) (hL : L.length = n) (d : β) :
    List.zipWith g ((List.range n).map f) L =
      (List.range n).map (fun b => g (f b) (L.getD b d)) := by
  apply List.ext_getElem
  · simp [hL]
  · intro i h1 h2
    simp only [List.length_zipWith, List.length_map, List.length_range, hL,
      min_self] at h1
    simp [List.getElem_zipWith, List.getElem_map, List.getElem_range,
      List.getD_eq_getElem?_getD, List.getElem?_eq_getElem (hL ▸ h1)]

lemma probe_none (cf : CostFunction) (manifolds : List (Option Manifold))
    (params : List (List ℚ)) (tol : ℚ) (o : NumericDiffOptions)
    (h : cf.eval params = none) :
    probe cf manifolds params tol o = (false, evalFailureResults cf manifolds) := by
  simp [probe, h]

lemma probe_numFail (cf : CostFunction) (manifolds : List (Option Manifold))
    (params : List (List ℚ)) (tol : ℚ) (o : NumericDiffOptions) (r : List ℚ)
    (jacs : List Mat) (h : cf.eval params = some (r, jacs))
    (hn : numericLocalJacobians cf manifolds params o = none) :
    probe cf manifolds params tol o =
      (false,
       { return_value := true
         residuals := fitVec cf.residualDim r
         jacobians := analyticAmbients cf jacs
         numeric_jacobians := zeroAmbientList cf
         local_jacobians := analyticLocals cf manifolds params jacs
         local_numeric_jacobians := zeroLocalList cf manifolds
         maximum_relative_error := 0
         error_log := ["Numerical differentiation failed."] }) := by
  simp [probe, h, hn]

lemma probe_some (cf : CostFunction) (manifolds : List (Option Manifold))
    (params : List (List ℚ)) (tol : ℚ) (o : NumericDiffOptions) (r : List ℚ)
    (jacs : List Mat) (numLoc : List Mat) (h : cf.eval params = some (r, jacs))
    (hn : numericLocalJacobians cf manifolds params o = some numLoc) :
    probe cf manifolds params tol o =
      (decide (maxList (blockErrs (analyticLocals cf manifolds params jacs) numLoc) ≤ tol),
       { return_value := true
         residuals := fitVec cf.residualDim r
         jacobians := analyticAmbients cf jacs
         numeric_jacobians := numericAmbientJacobians cf params o
         local_jacobians := analyticLocals cf manifolds params jacs
         local_numeric_jacobians := numLoc
         maximum_relative_error := maxList (blockErrs (analyticLocals cf manifolds params jacs) numLoc)
         error_log := buildLog tol (blockErrs (analyticLocals cf manifolds params jacs) numLoc) }) := by
  simp [probe, h, hn]

/-- C2: when the evaluator fails at the base point, Probe returns false,
and the results record carries `success = false`, zero-filled matrices
and residuals of the declared shapes, zero maximum relative error, and a
non-empty log stating that evaluation failed. -/
theorem probe_evaluation_failure (cf : CostFunction)
    (manifolds : List (Option Manifold)) (params : List (List ℚ)) (tol : ℚ)
    (o : NumericDiffOptions) (h : cf.eval params = none) :
    (probe cf manifolds params tol o).1 = false ∧
    (probe cf manifolds params tol o).2.return_value = false ∧
    (probe cf manifolds params tol o).2.residuals = zeroVec cf.residualDim ∧
    (probe cf manifolds params tol o).2.jacobians = zeroAmbientList cf ∧
    (probe cf manifolds params tol o).2.numeric_jacobians = zeroAmbientList cf ∧
    (probe cf manifolds params tol o).2.local_jacobians = zeroLocalList cf manifolds ∧
    (probe cf manifolds params tol o).2.local_numeric_jacobians = zeroLocalList cf manifolds ∧
    (probe cf manifolds params tol o).2.maximum_relative_error = 0 ∧
    (probe cf manifolds params tol o).2.error_log ≠ [] := by
  rw [probe_none cf manifolds params tol o h]
  simp [evalFailureResults]

/-- Witness for C2 at a concrete failing evaluator. -/
theorem probe_evaluation_failure_witness :
    (cfFailing.eval [[0]] = none) ∧
    ((probe cfFailing [] [[0]] 0 ⟨0, 1⟩).1 = false ∧
     (probe cfFailing [] [[0]] 0 ⟨0, 1⟩).2.return_value = false ∧
     (probe cfFailing [] [[0]] 0 ⟨0, 1⟩).2.residuals = zeroVec cfFailing.residualDim ∧
     (probe cfFailing [] [[0]] 0 ⟨0, 1⟩).2.jacobians = zeroAmbientList cfFailing ∧
     (probe cfFailing [] [[0]] 0 ⟨0, 1⟩).2.numeric_jacobians = zeroAmbientList cfFailing ∧
     (probe cfFailing [] [[0]] 0 ⟨0, 1⟩).2.local_jacobians = zeroLocalList cfFailing [] ∧
     (probe cfFailing [] [[0]] 0 ⟨0, 1⟩).2.local_numeric_jacobians = zeroLocalList cfFailing [] ∧
     (probe cfFailing [] [[0]] 0 ⟨0, 1⟩).2.maximum_relative_error = 0 ∧
     (probe cfFailing [] [[0]] 0 ⟨0, 1⟩).2.error_log ≠ []) :=
  ⟨rfl, probe_evaluation_failure cfFailing [] [[0]] 0 ⟨0, 1⟩ rfl⟩

/-- C3: the `return_value` field of the results record always mirrors
the evaluator's success flag at the base point, independently of the
derivative-comparison outcome (which is carried only in the returned
boolean, `maximum_relative_error` and the log). -/
theorem probe_return_value_mirrors_evaluator (cf : CostFunction)
    (manifolds : List (Option Manifold)) (params : List (List ℚ)) (tol : ℚ)
    (o : NumericDiffOptions) :
    (probe cf manifolds params tol o).2.return_value = (cf.eval params).isSome := by
  cases h : cf.eval params with
  | none => rw [probe_none cf manifolds params tol o h]; rfl
  | some rj =>
    obtain ⟨r, jacs⟩ := rj
    cases hn : numericLocalJacobians cf manifolds params o with
    | none => rw [probe_numFail cf manifolds params tol o r jacs h hn]; rfl
    | some numLoc => rw [probe_some cf manifolds params tol o r jacs numLoc h hn]; rfl

/-- C9: probing with the results sink omitted returns the same boolean
as probing with a results record supplied. -/
theorem probeNoResults_eq_probe (cf : CostFunction)
    (manifolds : List (Option Manifold)) (params : List (List ℚ)) (tol : ℚ)
    (o : NumericDiffOptions) :
    probeNoResults cf manifolds params tol o = (probe cf manifolds params tol o).1 := by
  cases h : cf.eval params with
  | none => rw [probe_none cf manifolds params tol o h]; simp [probeNoResults, h]
  | some rj =>
    obtain ⟨r, jacs⟩ := rj
    cases hn : numericLocalJacobians cf manifolds params o with
    | none =>
      rw [probe_numFail cf manifolds params tol o r jacs h hn]
      simp [probeNoResults, h, hn]
    | some numLoc =>
      rw [probe_some cf manifolds params tol o r jacs numLoc h hn]
      simp [probeNoResults, h, hn, maxRelError]

lemma exists_failing_block (cf : CostFunction) (manifolds : List (Option Manifold))
    (params : List (List ℚ)) (o : NumericDiffOptions)
    (hn : numericLocalJacobians cf manifolds params o = none) :
    ∃ b, b < cf.blockSizes.length ∧
      numericBlockJacobian cf params b (manifoldAt manifolds b) o = none := by
  rw [numericLocalJacobians] at hn
  rcases List.mem_map.mp (allSome_eq_none_iff.mp hn) with ⟨b, hb, hgb⟩
  exact ⟨b, List.mem_range.mp hb, hgb⟩

lemma numericLocalJacobians_some_facts (cf : CostFunction)
    (manifolds : List (Option Manifold)) (params : List (List ℚ))
    (o : NumericDiffOptions) {numLoc : List Mat}
    (hn : numericLocalJacobians cf manifolds params o = some numLoc) :
    numLoc.length = cf.blockSizes.length ∧
    ∀ b, b < cf.blockSizes.length →
      numericBlockJacobian cf params b (manifoldAt manifolds b) o =
        some (numLoc.getD b []) := by
  rw [numericLocalJacobians] at hn
  have hchar := allSome_eq_some_iff.mp hn
  have hlen : numLoc.length = cf.blockSizes.length := by
    have := congrArg List.length hchar
    simpa using this.symm
  refine ⟨hlen, fun b hb => ?_⟩
  have hbL : b < numLoc.length := by rw [hlen]; exact hb
  have hg := congrArg (fun l => l.getD b none) hchar
  simp only [] at hg
  rw [getD_range_map _ _ hb, getD_map_some numLoc [] hbL] at hg
  exact hg

lemma blockAgrees_char (cf : CostFunction) (manifolds : List (Option Manifold))
    (params : List (List ℚ)) (o : NumericDiffOptions) (tol : ℚ) {r : List ℚ}
    {jacs numLoc : List Mat} (h : cf.eval params = some (r, jacs))
    (hn : numericLocalJacobians cf manifolds params o = some numLoc) {b : ℕ}
    (hb : b < cf.blockSizes.length) :
    blockAgrees cf manifolds params o tol b ↔
      matErr (analyticLocalAt cf manifolds params jacs b) (numLoc.getD b []) ≤ tol := by
  have hcomp := (numericLocalJacobians_some_facts cf manifolds params o hn).2 b hb
  unfold blockAgrees
  rw [h]
  constructor
  · rintro ⟨J, N, h1, h2, h3⟩
    obtain rfl : J = analyticLocalAt cf manifolds params jacs b := by
      simpa using h1.symm
    obtain rfl : N = numLoc.getD b [] := by
      rw [hcomp] at h2
      exact (Option.some.inj h2).symm
    exact h3
  · intro hle
    exact ⟨_, _, by simp, hcomp, hle⟩

lemma blockErrs_eq_range_map (cf : CostFunction)
    (manifolds : List (Option Manifold)) (params : List (List ℚ))
    (jacs numLoc : List Mat) (hlen : numLoc.length = cf.blockSizes.length) :
    blockErrs (analyticLocals cf manifolds params jacs) numLoc =
      (List.range cf.blockSizes.length).map
        (fun b => matErr (analyticLocalAt cf manifolds params jacs b) (numLoc.getD b [])) := by
  unfold blockErrs analyticLocals
  exact zipWith_range_map _ _ _ hlen []

lemma buildLog_eq_nil_iff {tol : ℚ} {errs : List ℚ} :
    buildLog tol errs = [] ↔ ∀ b, b < errs.length → errs.getD b 0 ≤ tol := by
  unfold buildLog
  rw [List.filterMap_eq_nil_iff]
  constructor
  · intro h b hb
    have := h b (List.mem_range.mpr hb)
    by_contra hlt
    rw [if_pos (lt_of_not_le hlt)] at this
    exact absurd this (by simp)
  · intro h b hb
    rw [if_neg (not_lt_of_le (h b (List.mem_range.mp hb)))]

/-- C1: Probe returns true exactly when the evaluator succeeded at the
point and every parameter block's local analytic Jacobian agrees with
its local numeric Jacobian within the relative precision (the worst
per-element relative error over all blocks is at most the precision). -/
theorem probe_true_iff_agreement (cf : CostFunction)
    (manifolds : List (Option Manifold)) (params : List (List ℚ)) (tol : ℚ)
    (o : NumericDiffOptions) (htol : 0 ≤ tol) :
    (probe cf manifolds params tol o).1 = true ↔
      ((cf.eval params).isSome ∧ ∀ b, b < cf.blockSizes.length →
        blockAgrees cf manifolds params o tol b) := by
  cases h : cf.eval params with
  | none => rw [probe_none cf manifolds params tol o h]; simp
  | some rj =>
    obtain ⟨r, jacs⟩ := rj
    cases hn : numericLocalJacobians cf manifolds params o with
    | none =>
      rw [probe_numFail cf manifolds params tol o r jacs h hn]
      constructor
      · intro hF
        exact absurd hF (by simp)
      · rintro ⟨-, hall⟩
        obtain ⟨b, hb, hgb⟩ := exists_failing_block cf manifolds params o hn
        obtain ⟨J, N, -, h2, -⟩ := hall b hb
        rw [hgb] at h2
        exact absurd h2 (by simp)
    | some numLoc =>
      have hlen := (numericLocalJacobians_some_facts cf manifolds params o hn).1
      rw [probe_some cf manifolds params tol o r jacs numLoc h hn]
      simp only [decide_eq_true_eq]
      rw [blockErrs_eq_range_map cf manifolds params jacs numLoc hlen, maxList_le_iff]
      constructor
      · rintro ⟨-, hall⟩
        refine ⟨by simp, fun b hb => ?_⟩
        rw [blockAgrees_char cf manifolds params o tol h hn hb]
        exact hall _ (List.mem_map.mpr ⟨b, List.mem_range.mpr hb, rfl⟩)
      · rintro ⟨-, hall⟩
        refine ⟨htol, fun x hx => ?_⟩
        obtain ⟨b, hb, rfl⟩ := List.mem_map.mp hx
        exact (blockAgrees_char cf manifolds params o tol h hn
          (List.mem_range.mp hb)).mp (hall b (List.mem_range.mp hb))

/-- C8: given that the evaluator succeeded, the diagnostic log of a
probe is empty exactly when every parameter block passes the
comparison, and (for a nonnegative tolerance) exactly when the probe
returned true. -/
theorem probe_log_empty_iff_all_pass (cf : CostFunction)
    (manifolds : List (Option Manifold)) (params : List (List ℚ)) (tol : ℚ)
    (o : NumericDiffOptions) (hs : (cf.eval params).isSome) (htol : 0 ≤ tol) :
    ((probe cf manifolds params tol o).2.error_log = [] ↔
      ∀ b, b < cf.blockSizes.length → blockAgrees cf manifolds params o tol b) ∧
    ((probe cf manifolds params tol o).2.error_log = [] ↔
      (probe cf manifolds params tol o).1 = true) := by
  obtain ⟨rj, h⟩ := Option.isSome_iff_exists.mp hs
  obtain ⟨r, jacs⟩ := rj
  cases hn : numericLocalJacobians cf manifolds params o with
  | none =>
    rw [probe_numFail cf manifolds params tol o r jacs h hn]
    have hfail : ¬∀ b, b < cf.blockSizes.length →
        blockAgrees cf manifolds params o tol b := by
      intro hall
      obtain ⟨b, hb, hgb⟩ := exists_failing_block cf manifolds params o hn
      obtain ⟨J, N, -, h2, -⟩ := hall b hb
      rw [hgb] at h2
      exact absurd h2 (by simp)
    constructor
    · simp only [iff_false_intro hfail]
      simp
    · simp
  | some numLoc =>
    have hlen := (numericLocalJacobians_some_facts cf manifolds params o hn).1
    rw [probe_some cf manifolds params tol o r jacs numLoc h hn]
    simp only [decide_eq_true_eq]
    rw [blockErrs_eq_range_map cf manifolds params jacs numLoc hlen]
    have hchar : buildLog tol ((List.range cf.blockSizes.length).map
        (fun b => matErr (analyticLocalAt cf manifolds params jacs b) (numLoc.getD b []))) = [] ↔
        ∀ b, b < cf.blockSizes.length →
          blockAgrees cf manifolds params o tol b := by
      rw [buildLog_eq_nil_iff]
      simp only [List.length_map, List.length_range]
      constructor
      · intro hall b hb
        rw [blockAgrees_char cf manifolds params o tol h hn hb]
        have := hall b hb
        rwa [getD_range_map _ _ hb] at this
      · intro hall b hb
        rw [getD_range_map _ _ hb]
        exact (blockAgrees_char cf manifolds params o tol h hn hb).mp (hall b hb)
    refine ⟨hchar, ?_⟩
    rw [hchar, maxList_le_iff]
    constructor
    · intro hall
      refine ⟨htol, fun x hx => ?_⟩
      obtain ⟨b, hb, rfl⟩ := List.mem_map.mp hx
      exact (blockAgrees_char cf manifolds params o tol h hn
        (List.mem_range.mp hb)).mp (hall b (List.mem_range.mp hb))
    · rintro ⟨-, hall⟩ b hb
      rw [blockAgrees_char cf manifolds params o tol h hn hb]
      exact hall _ (List.mem_map.mpr ⟨b, List.mem_range.mpr hb, rfl⟩)

lemma getD_zeroAmbientList (cf : CostFunction) {b : ℕ}
    (hb : b < cf.blockSizes.length) :
    (zeroAmbientList cf).getD b [] =
      zeroMat cf.residualDim (cf.blockSizes.getD b 0) := by
  unfold zeroAmbientList
  exact getD_range_map _ _ hb

lemma getD_zeroLocalList (cf : CostFunction) (manifolds : List (Option Manifold))
    {b : ℕ} (hb : b < cf.blockSizes.length) :
    (zeroLocalList cf manifolds).getD b [] =
      zeroMat cf.residualDim (tangentSizeAt cf manifolds b) := by
  unfold zeroLocalList
  exact getD_range_map _ _ hb

lemma matShape_zeroMat (r c : ℕ) : matShape r c (zeroMat r c) := by
  refine ⟨by simp [zeroMat], fun row hrow => ?_⟩
  rw [List.eq_of_mem_replicate hrow]
  simp [zeroVec]

lemma fitVec_length (n : ℕ) (v : List ℚ) : (fitVec n v).length = n := by
  simp [fitVec]

lemma matShape_fitMat (r c : ℕ) (A : Mat) : matShape r c (fitMat r c A) := by
  refine ⟨by simp [fitMat], fun row hrow => ?_⟩
  obtain ⟨i, -, rfl⟩ := List.mem_map.mp hrow
  exact fitVec_length c _

lemma matShape_colsToRows (rdim : ℕ) (cols : List (List ℚ)) :
    matShape rdim cols.length (colsToRows rdim cols) := by
  refine ⟨by simp [colsToRows], fun row hrow => ?_⟩
  obtain ⟨i, -, rfl⟩ := List.mem_map.mp hrow
  simp

lemma numericBlockJacobian_shape (cf : CostFunction) (params : List (List ℚ))
    (b : ℕ) (m? : Option Manifold) (o : NumericDiffOptions) {N : Mat}
    (h : numericBlockJacobian cf params b m? o = some N) :
    matShape cf.residualDim (tangentDim cf m? b) N := by
  unfold numericBlockJacobian at h
  obtain ⟨cols, hc, rfl⟩ := Option.map_eq_some'.mp h
  have hlen : cols.length = tangentDim cf m? b := by
    have := congrArg List.length (allSome_eq_some_iff.mp hc)
    simpa using this.symm
  exact hlen ▸ matShape_colsToRows cf.residualDim cols

lemma analyticLocalAt_shape (cf : CostFunction) (manifolds : List (Option Manifold))
    (params : List (List ℚ)) (jacs : List Mat) (b : ℕ) :
    matShape cf.residualDim (tangentSizeAt cf manifolds b)
      (analyticLocalAt cf manifolds params jacs b) := by
  unfold analyticLocalAt project tangentSizeAt tangentDim
  cases manifoldAt manifolds b with
  | none => exact matShape_fitMat _ _ _
  | some m =>
    refine ⟨by simp [matMulW, analyticAmbientAt, fitMat], fun row hrow => ?_⟩
    obtain ⟨rr, -, rfl⟩ := List.mem_map.mp hrow
    simp

lemma numericAmbientJacobian_shape (cf : CostFunction) (params : List (List ℚ))
    (b : ℕ) (o : NumericDiffOptions) :
    matShape cf.residualDim (cf.blockSizes.getD b 0)
      (numericAmbientJacobian cf params b o) := by
  unfold numericAmbientJacobian
  cases h : numericBlockJacobian cf params b none o with
  | none => exact matShape_zeroMat _ _
  | some N => exact numericBlockJacobian_shape cf params b none o h

/-- C4: after every probe, the four per-block matrix sequences have one
entry per parameter block, every ambient matrix is
`residual_dim × block_ambient_size`, every local matrix is
`residual_dim × block_tangent_size`, the residual vector has length
`residual_dim`, and when the evaluation failed the matrices are the
zero-filled ones of those shapes. -/
theorem probe_results_well_shaped (cf : CostFunction)
    (manifolds : List (Option Manifold)) (params : List (List ℚ)) (tol : ℚ)
    (o : NumericDiffOptions) :
    ((probe cf manifolds params tol o).2.residuals).length = cf.residualDim ∧
    ((probe cf manifolds params tol o).2.jacobians).length = cf.blockSizes.length ∧
    ((probe cf manifolds params tol o).2.numeric_jacobians).length = cf.blockSizes.length ∧
    ((probe cf manifolds params tol o).2.local_jacobians).length = cf.blockSizes.length ∧
    ((probe cf manifolds params tol o).2.local_numeric_jacobians).length = cf.blockSizes.length ∧
    (∀ b, b < cf.blockSizes.length →
      matShape cf.residualDim (cf.blockSizes.getD b 0)
        ((probe cf manifolds params tol o).2.jacobians.getD b []) ∧
      matShape cf.residualDim (cf.blockSizes.getD b 0)
        ((probe cf manifolds params tol o).2.numeric_jacobians.getD b []) ∧
      matShape cf.residualDim (tangentSizeAt cf manifolds b)
        ((probe cf manifolds params tol o).2.local_jacobians.getD b []) ∧
      matShape cf.residualDim (tangentSizeAt cf manifolds b)
        ((probe cf manifolds params tol o).2.local_numeric_jacobians.getD b [])) ∧
    (cf.eval params = none →
      (probe cf manifolds params tol o).2.jacobians = zeroAmbientList cf ∧
      (probe cf manifolds params tol o).2.numeric_jacobians = zeroAmbientList cf ∧
      (probe cf manifolds params tol o).2.local_jacobians = zeroLocalList cf manifolds ∧
      (probe cf manifolds params tol o).2.local_numeric_jacobians = zeroLocalList cf manifolds) := by
  cases h : cf.eval params with
  | none =>
    rw [probe_none cf manifolds params tol o h]
    refine ⟨by simp [evalFailureResults, zeroVec], by simp [evalFailureResults, zeroAmbientList],
      by simp [evalFailureResults, zeroAmbientList], by simp [evalFailureResults, zeroLocalList],
      by simp [evalFailureResults, zeroLocalList], fun b hb => ?_, fun _ => ⟨rfl, rfl, rfl, rfl⟩⟩
    refine ⟨?_, ?_, ?_, ?_⟩
    · show matShape _ _ ((zeroAmbientList cf).getD b [])
      rw [getD_zeroAmbientList cf hb]
      exact matShape_zeroMat _ _
    · show matShape _ _ ((zeroAmbientList cf).getD b [])
      rw [getD_zeroAmbientList cf hb]
      exact matShape_zeroMat _ _
    · show matShape _ _ ((zeroLocalList cf manifolds).getD b [])
      rw [getD_zeroLocalList cf manifolds hb]
      exact matShape_zeroMat _ _
    · show matShape _ _ ((zeroLocalList cf manifolds).getD b [])
      rw [getD_zeroLocalList cf manifolds hb]
      exact matShape_zeroMat _ _
  | some rj =>
    obtain ⟨r, jacs⟩ := rj
    have hshape : ∀ b, b < cf.blockSizes.length →
        matShape cf.residualDim (cf.blockSizes.getD b 0)
          ((analyticAmbients cf jacs).getD b []) ∧
        matShape cf.residualDim (tangentSizeAt cf manifolds b)
          ((analyticLocals cf manifolds params jacs).getD b []) := by
      intro b hb
      unfold analyticAmbients analyticLocals
      rw [getD_range_map _ _ hb, getD_range_map _ _ hb]
      exact ⟨matShape_fitMat _ _ _, analyticLocalAt_shape cf manifolds params jacs b⟩
    cases hn : numericLocalJacobians cf manifolds params o with
    | none =>
      rw [probe_numFail cf manifolds params tol o r jacs h hn]
      refine ⟨fitVec_length _ _, by simp [analyticAmbients], by simp [zeroAmbientList],
        by simp [analyticLocals], by simp [zeroLocalList], fun b hb => ?_,
        fun hcon => Option.noConfusion hcon⟩
      refine ⟨(hshape b hb).1, ?_, (hshape b hb).2, ?_⟩
      · show matShape _ _ ((zeroAmbientList cf).getD b [])
        rw [getD_zeroAmbientList cf hb]
        exact matShape_zeroMat _ _
      · show matShape _ _ ((zeroLocalList cf manifolds).getD b [])
        rw [getD_zeroLocalList cf manifolds hb]
        exact matShape_zeroMat _ _
    | some numLoc =>
      obtain ⟨hlen, hcomp⟩ := numericLocalJacobians_some_facts cf manifolds params o hn
      rw [probe_some cf manifolds params tol o r jacs numLoc h hn]
      refine ⟨fitVec_length _ _, by simp [analyticAmbients], by simp [numericAmbientJacobians],
        by simp [analyticLocals], hlen, fun b hb => ?_,
        fun hcon => Option.noConfusion hcon⟩
      refine ⟨(hshape b hb).1, ?_, (hshape b hb).2, ?_⟩
      · show matShape _ _ ((numericAmbientJacobians cf params o).getD b [])
        unfold numericAmbientJacobians
        rw [getD_range_map _ _ hb]
        exact numericAmbientJacobian_shape cf params b o
      · exact numericBlockJacobian_shape cf params b (manifoldAt manifolds b) o (hcomp b hb)

lemma fitVec_id {c : ℕ} {v : List ℚ} (h : v.length = c) : fitVec c v = v := by
  apply List.ext_getElem
  · simp [fitVec, h]
  · intro i h1 h2
    simp [fitVec, List.getD_eq_getElem?_getD, List.getElem?_eq_getElem h2]

lemma fitMat_id {r c : ℕ} {A : Mat} (h : matShape r c A) : fitMat r c A = A := by
  obtain ⟨hr, hc⟩ := h
  apply List.ext_getElem
  · simp [fitMat, hr]
  · intro i h1 h2
    simp only [fitMat, List.getElem_map, List.getElem_range]
    rw [List.getD_eq_getElem?_getD, List.getElem?_eq_getElem h2]
    exact fitVec_id (hc _ (List.getElem_mem h2))

lemma headD_length_of_shape {a t : ℕ} {B : Mat} (h : matShape a t B)
    (hpos : 0 < a) : (B.headD []).length = t := by
  obtain ⟨hr, hc⟩ := h
  cases B with
  | nil => rw [List.length_nil] at hr; omega
  | cons row tl => exact hc row (List.mem_cons_self _ _)

lemma probe_analytic_fields (cf : CostFunction) (manifolds : List (Option Manifold))
    (params : List (List ℚ)) (tol : ℚ) (o : NumericDiffOptions) (r : List ℚ)
    (jacs : List Mat) (heval : cf.eval params = some (r, jacs)) :
    (probe cf manifolds params tol o).2.local_jacobians =
      analyticLocals cf manifolds params jacs ∧
    (probe cf manifolds params tol o).2.jacobians = analyticAmbients cf jacs := by
  cases hn : numericLocalJacobians cf manifolds params o with
  | none => rw [probe_numFail cf manifolds params tol o r jacs heval hn]; exact ⟨rfl, rfl⟩
  | some numLoc => rw [probe_some cf manifolds params tol o r jacs numLoc heval hn]; exact ⟨rfl, rfl⟩

/-- C5: for every block with a manifold (of positive ambient size and a
well-shaped `plus_jacobian`), the reported local analytic Jacobian is
the ambient analytic Jacobian times the manifold's `plus_jacobian` at
the current point; for a block without a manifold it is the ambient
Jacobian unchanged and the tangent size equals the ambient size. -/
theorem probe_local_is_projected_ambient (cf : CostFunction)
    (manifolds : List (Option Manifold)) (params : List (List ℚ)) (tol : ℚ)
    (o : NumericDiffOptions) (b : ℕ) (r : List ℚ) (jacs : List Mat)
    (hb : b < cf.blockSizes.length) (heval : cf.eval params = some (r, jacs)) :
    (∀ m : Manifold, manifoldAt manifolds b = some m → 0 < m.ambientSize →
      matShape m.ambientSize m.tangentSize (m.plusJacobian (params.getD b [])) →
      (probe cf manifolds params tol o).2.local_jacobians.getD b [] =
        matMul ((probe cf manifolds params tol o).2.jacobians.getD b [])
          (m.plusJacobian (params.getD b []))) ∧
    (manifoldAt manifolds b = none →
      (probe cf manifolds params tol o).2.local_jacobians.getD b [] =
        (probe cf manifolds params tol o).2.jacobians.getD b [] ∧
      tangentSizeAt cf manifolds b = cf.blockSizes.getD b 0) := by
  obtain ⟨hl, ha⟩ := probe_analytic_fields cf manifolds params tol o r jacs heval
  rw [hl, ha]
  unfold analyticLocals analyticAmbients
  rw [getD_range_map _ _ hb, getD_range_map _ _ hb]
  constructor
  · intro m hm hpos hsh
    unfold analyticLocalAt
    rw [hm]
    show matMulW m.tangentSize (analyticAmbientAt cf jacs b)
        (fitMat m.ambientSize m.tangentSize (m.plusJacobian (params.getD b []))) = _
    rw [fitMat_id hsh]
    unfold matMul
    rw [headD_length_of_shape hsh hpos]
  · intro hm
    unfold analyticLocalAt tangentSizeAt tangentDim
    rw [hm]
    exact ⟨rfl, rfl⟩

/-- Witness for C5 at the concrete linear evaluator, exercising both
the manifold block (index 0) and the manifold-free block (index 1). -/
theorem probe_local_is_projected_ambient_witness :
    (0 < cfLin.blockSizes.length ∧ 1 < cfLin.blockSizes.length ∧
     cfLin.eval pLin = some ([10], [[[2, 3]], [[5]]])) ∧
    ((∀ m : Manifold, manifoldAt msLin 0 = some m → 0 < m.ambientSize →
       matShape m.ambientSize m.tangentSize (m.plusJacobian (pLin.getD 0 [])) →
       (probe cfLin msLin pLin 0 oLin).2.local_jacobians.getD 0 [] =
         matMul ((probe cfLin msLin pLin 0 oLin).2.jacobians.getD 0 [])
           (m.plusJacobian (pLin.getD 0 []))) ∧
     (manifoldAt msLin 0 = none →
       (probe cfLin msLin pLin 0 oLin).2.local_jacobians.getD 0 [] =
         (probe cfLin msLin pLin 0 oLin).2.jacobians.getD 0 [] ∧
       tangentSizeAt cfLin msLin 0 = cfLin.blockSizes.getD 0 0)) ∧
    ((∀ m : Manifold, manifoldAt msLin 1 = some m → 0 < m.ambientSize →
       matShape m.ambientSize m.tangentSize (m.plusJacobian (pLin.getD 1 [])) →
       (probe cfLin msLin pLin 0 oLin).2.local_jacobians.getD 1 [] =
         matMul ((probe cfLin msLin pLin 0 oLin).2.jacobians.getD 1 [])
           (m.plusJacobian (pLin.getD 1 []))) ∧
     (manifoldAt msLin 1 = none →
       (probe cfLin msLin pLin 0 oLin).2.local_jacobians.getD 1 [] =
         (probe cfLin msLin pLin 0 oLin).2.jacobians.getD 1 [] ∧
       tangentSizeAt cfLin msLin 1 = cfLin.blockSizes.getD 1 0)) :=
  ⟨⟨by decide, by decide, by decide⟩,
   probe_local_is_projected_ambient cfLin msLin pLin 0 oLin 0 [10] [[[2, 3]], [[5]]]
     (by decide) (by decide),
   probe_local_is_projected_ambient cfLin msLin pLin 0 oLin 1 [10] [[[2, 3]], [[5]]]
     (by decide) (by decide)⟩

/-- Witness for C1 at the concrete linear evaluator. -/
theorem probe_true_iff_agreement_witness :
    ((0 : ℚ) ≤ 0) ∧
    ((probe cfLin msLin pLin 0 oLin).1 = true ↔
      ((cfLin.eval pLin).isSome ∧ ∀ b, b < cfLin.blockSizes.length →
        blockAgrees cfLin msLin pLin oLin 0 b)) :=
  ⟨le_refl 0, probe_true_iff_agreement cfLin msLin pLin 0 oLin (le_refl 0)⟩

/-- Witness for C8 at the concrete linear evaluator. -/
theorem probe_log_empty_iff_all_pass_witness :
    ((cfLin.eval pLin).isSome ∧ (0 : ℚ) ≤ 0) ∧
    (((probe cfLin msLin pLin 0 oLin).2.error_log = [] ↔
       ∀ b, b < cfLin.blockSizes.length → blockAgrees cfLin msLin pLin oLin 0 b) ∧
     ((probe cfLin msLin pLin 0 oLin).2.error_log = [] ↔
       (probe cfLin msLin pLin 0 oLin).1 = true)) :=
  ⟨⟨by decide, le_refl 0⟩,
   probe_log_empty_iff_all_pass cfLin msLin pLin 0 oLin (by decide) (le_refl 0)⟩

/-- Witness for C4 at the concrete linear evaluator. -/
theorem probe_results_well_shaped_witness :
    ((probe cfLin msLin pLin 0 oLin).2.residuals).length = cfLin.residualDim ∧
    ((probe cfLin msLin pLin 0 oLin).2.jacobians).length = cfLin.blockSizes.length ∧
    ((probe cfLin msLin pLin 0 oLin).2.numeric_jacobians).length = cfLin.blockSizes.length ∧
    ((probe cfLin msLin pLin 0 oLin).2.local_jacobians).length = cfLin.blockSizes.length ∧
    ((probe cfLin msLin pLin 0 oLin).2.local_numeric_jacobians).length = cfLin.blockSizes.length ∧
    (∀ b, b < cfLin.blockSizes.length →
      matShape cfLin.residualDim (cfLin.blockSizes.getD b 0)
        ((probe cfLin msLin pLin 0 oLin).2.jacobians.getD b []) ∧
      matShape cfLin.residualDim (cfLin.blockSizes.getD b 0)
        ((probe cfLin msLin pLin 0 oLin).2.numeric_jacobians.getD b []) ∧
      matShape cfLin.residualDim (tangentSizeAt cfLin msLin b)
        ((probe cfLin msLin pLin 0 oLin).2.local_jacobians.getD b []) ∧
      matShape cfLin.residualDim (tangentSizeAt cfLin msLin b)
        ((probe cfLin msLin pLin 0 oLin).2.local_numeric_jacobians.getD b [])) ∧
    (cfLin.eval pLin = none →
      (probe cfLin msLin pLin 0 oLin).2.jacobians = zeroAmbientList cfLin ∧
      (probe cfLin msLin pLin 0 oLin).2.numeric_jacobians = zeroAmbientList cfLin ∧
      (probe cfLin msLin pLin 0 oLin).2.local_jacobians = zeroLocalList cfLin msLin ∧
      (probe cfLin msLin pLin 0 oLin).2.local_numeric_jacobians = zeroLocalList cfLin msLin) :=
  probe_results_well_shaped cfLin msLin pLin 0 oLin

lemma numericColumn_ext {cf1 cf2 : CostFunction}
    (hrd : cf2.residualDim = cf1.residualDim)
    (hres : ∀ p, evalResiduals cf2 p = evalResiduals cf1 p)
    (params : List (List ℚ)) (b : ℕ) (m? : Option Manifold) (tsize : ℕ)
    (o : NumericDiffOptions) (i : ℕ) :
    numericColumn cf2 params b m? tsize o i = numericColumn cf1 params b m? tsize o i := by
  unfold numericColumn
  simp only [hres, hrd]

lemma numericBlockJacobian_ext {cf1 cf2 : CostFunction}
    (hsz : cf2.blockSizes = cf1.blockSizes)
    (hrd : cf2.residualDim = cf1.residualDim)
    (hres : ∀ p, evalResiduals cf2 p = evalResiduals cf1 p)
    (params : List (List ℚ)) (b : ℕ) (m? : Option Manifold)
    (o : NumericDiffOptions) :
    numericBlockJacobian cf2 params b m? o = numericBlockJacobian cf1 params b m? o := by
  have ht : tangentDim cf2 m? b = tangentDim cf1 m? b := by
    cases m? <;> simp [tangentDim, hsz]
  have hcol : numericColumn cf2 params b m? (tangentDim cf1 m? b) o =
      numericColumn cf1 params b m? (tangentDim cf1 m? b) o :=
    funext (fun i => numericColumn_ext hrd hres params b m? _ o i)
  unfold numericBlockJacobian
  rw [ht, hrd, hcol]

lemma numericLocalJacobians_ext {cf1 cf2 : CostFunction}
    (hsz : cf2.blockSizes = cf1.blockSizes)
    (hrd : cf2.residualDim = cf1.residualDim)
    (hres : ∀ p, evalResiduals cf2 p = evalResiduals cf1 p)
    (manifolds : List (Option Manifold)) (params : List (List ℚ))
    (o : NumericDiffOptions) :
    numericLocalJacobians cf2 manifolds params o =
      numericLocalJacobians cf1 manifolds params o := by
  have hfun : (fun b => numericBlockJacobian cf2 params b (manifoldAt manifolds b) o) =
      (fun b => numericBlockJacobian cf1 params b (manifoldAt manifolds b) o) :=
    funext (fun b => numericBlockJacobian_ext hsz hrd hres params b _ o)
  unfold numericLocalJacobians
  rw [hsz, hfun]

lemma numericAmbientJacobians_ext {cf1 cf2 : CostFunction}
    (hsz : cf2.blockSizes = cf1.blockSizes)
    (hrd : cf2.residualDim = cf1.residualDim)
    (hres : ∀ p, evalResiduals cf2 p = evalResiduals cf1 p)
    (params : List (List ℚ)) (o : NumericDiffOptions) :
    numericAmbientJacobians cf2 params o = numericAmbientJacobians cf1 params o := by
  have hfun : (fun b => numericAmbientJacobian cf2 params b o) =
      (fun b => numericAmbientJacobian cf1 params b o) := by
    funext b
    unfold numericAmbientJacobian
    rw [numericBlockJacobian_ext hsz hrd hres params b none o, hrd, hsz]
  unfold numericAmbientJacobians
  rw [hsz, hfun]

lemma zeroAmbientList_ext {cf1 cf2 : CostFunction}
    (hsz : cf2.blockSizes = cf1.blockSizes)
    (hrd : cf2.residualDim = cf1.residualDim) :
    zeroAmbientList cf2 = zeroAmbientList cf1 := by
  unfold zeroAmbientList
  rw [hsz, hrd]

lemma zeroLocalList_ext {cf1 cf2 : CostFunction}
    (hsz : cf2.blockSizes = cf1.blockSizes)
    (hrd : cf2.residualDim = cf1.residualDim)
    (manifolds : List (Option Manifold)) :
    zeroLocalList cf2 manifolds = zeroLocalList cf1 manifolds := by
  have hfun : (fun b => zeroMat cf2.residualDim (tangentSizeAt cf2 manifolds b)) =
      (fun b => zeroMat cf1.residualDim (tangentSizeAt cf1 manifolds b)) := by
    funext b
    unfold tangentSizeAt tangentDim
    cases manifoldAt manifolds b <;> rw [hrd, hsz]
  unfold zeroLocalList
  rw [hsz, hfun]

/-- C10: the residuals and the numeric (ambient and local) Jacobians a
probe records depend only on the evaluator's residual behavior: two
evaluators of the same declared sizes whose evaluations agree on
success and residual values at every point (only their analytic
Jacobians differ) produce identical `residuals`, `numeric_jacobians`
and `local_numeric_jacobians`, at any tolerances. -/
theorem probe_numeric_depends_only_on_residuals (cf1 cf2 : CostFunction)
    (manifolds : List (Option Manifold)) (params : List (List ℚ))
    (tol1 tol2 : ℚ) (o : NumericDiffOptions)
    (hsz : cf2.blockSizes = cf1.blockSizes)
    (hrd : cf2.residualDim = cf1.residualDim)
    (hres : ∀ p, evalResiduals cf2 p = evalResiduals cf1 p) :
    (probe cf2 manifolds params tol2 o).2.residuals =
      (probe cf1 manifolds params tol1 o).2.residuals ∧
    (probe cf2 manifolds params tol2 o).2.numeric_jacobians =
      (probe cf1 manifolds params tol1 o).2.numeric_jacobians ∧
    (probe cf2 manifolds params tol2 o).2.local_numeric_jacobians =
      (probe cf1 manifolds params tol1 o).2.local_numeric_jacobians := by
  have hresp := hres params
  cases h1 : cf1.eval params with
  | none =>
    have h2 : cf2.eval params = none := by
      unfold evalResiduals at hresp
      rw [h1] at hresp
      simpa [Option.map_eq_none'] using hresp
    rw [probe_none cf1 manifolds params tol1 o h1, probe_none cf2 manifolds params tol2 o h2]
    refine ⟨?_, ?_, ?_⟩
    · show zeroVec cf2.residualDim = zeroVec cf1.residualDim
      rw [hrd]
    · exact zeroAmbientList_ext hsz hrd
    · exact zeroLocalList_ext hsz hrd manifolds
  | some rj1 =>
    obtain ⟨r1, jacs1⟩ := rj1
    have hr2 : evalResiduals cf2 params = some r1 := by
      rw [hresp]
      unfold evalResiduals
      rw [h1]
      rfl
    obtain ⟨⟨r2, jacs2⟩, h2, hfst⟩ := Option.map_eq_some'.mp hr2
    have hr21 : r2 = r1 := hfst
    rw [hr21] at h2
    have hnum := numericLocalJacobians_ext hsz hrd hres manifolds params o
    cases hn1 : numericLocalJacobians cf1 manifolds params o with
    | none =>
      rw [probe_numFail cf1 manifolds params tol1 o r1 jacs1 h1 hn1,
        probe_numFail cf2 manifolds params tol2 o r1 jacs2 h2 (hnum.trans hn1)]
      refine ⟨?_, zeroAmbientList_ext hsz hrd, zeroLocalList_ext hsz hrd manifolds⟩
      show fitVec cf2.residualDim r1 = fitVec cf1.residualDim r1
      rw [hrd]
    | some numLoc =>
      rw [probe_some cf1 manifolds params tol1 o r1 jacs1 numLoc h1 hn1,
        probe_some cf2 manifolds params tol2 o r1 jacs2 numLoc h2 (hnum.trans hn1)]
      refine ⟨?_, numericAmbientJacobians_ext hsz hrd hres params o, rfl⟩
      show fitVec cf2.residualDim r1 = fitVec cf1.residualDim r1
      rw [hrd]

/-- Witness for C10: the linear evaluator and its Jacobian-offset
variant share residual behavior, so their probes agree on residuals
and numeric Jacobians. -/
theorem probe_numeric_depends_only_on_residuals_witness :
    (cfLinOff.blockSizes = cfLin.blockSizes ∧
     cfLinOff.residualDim = cfLin.residualDim ∧
     ∀ p, evalResiduals cfLinOff p = evalResiduals cfLin p) ∧
    ((probe cfLinOff msLin pLin 0 oLin).2.residuals =
       (probe cfLin msLin pLin 0 oLin).2.residuals ∧
     (probe cfLinOff msLin pLin 0 oLin).2.numeric_jacobians =
       (probe cfLin msLin pLin 0 oLin).2.numeric_jacobians ∧
     (probe cfLinOff msLin pLin 0 oLin).2.local_numeric_jacobians =
       (probe cfLin msLin pLin 0 oLin).2.local_numeric_jacobians) :=
  ⟨⟨rfl, rfl, fun _ => rfl⟩,
   probe_numeric_depends_only_on_residuals cfLin cfLinOff msLin pLin 0 0 oLin
     rfl rfl (fun _ => rfl)⟩

/-- C7: for a fixed evaluator whose base evaluation and numeric
differentiation succeed, the probe outcome is monotone in the
tolerance: there is a threshold below which every probe fails and at or
above which every probe passes. -/
theorem probe_monotone_in_tolerance (cf : CostFunction)
    (manifolds : List (Option Manifold)) (params : List (List ℚ))
    (o : NumericDiffOptions) (h1 : (cf.eval params).isSome)
    (h2 : (numericLocalJacobians cf manifolds params o).isSome) :
    ∃ T0 : ℚ, ∀ tol : ℚ, ((probe cf manifolds params tol o).1 = true ↔ T0 ≤ tol) := by
  obtain ⟨rj, heval⟩ := Option.isSome_iff_exists.mp h1
  obtain ⟨r, jacs⟩ := rj
  obtain ⟨numLoc, hn⟩ := Option.isSome_iff_exists.mp h2
  refine ⟨maxList (blockErrs (analyticLocals cf manifolds params jacs) numLoc),
    fun tol => ?_⟩
  rw [probe_some cf manifolds params tol o r jacs numLoc heval hn]
  simp only [decide_eq_true_eq]

/-- Witness for C7 at the cubic evaluator with a `10^-12` Jacobian
offset: the threshold exists, and concretely the probe fails at
tolerance `10^-12` and passes at tolerance 1. -/
theorem probe_monotone_in_tolerance_witness :
    ((cfCubic.eval [[1]]).isSome ∧
     (numericLocalJacobians cfCubic [] [[1]] oCubic).isSome) ∧
    (∃ T0 : ℚ, ∀ tol : ℚ,
      ((probe cfCubic [] [[1]] tol oCubic).1 = true ↔ T0 ≤ tol)) ∧
    (probe cfCubic [] [[1]] (1 / 1000000000000) oCubic).1 = false ∧
    (probe cfCubic [] [[1]] 1 oCubic).1 = true :=
  ⟨⟨by decide, by decide⟩,
   probe_monotone_in_tolerance cfCubic [] [[1]] oCubic (by decide) (by decide),
   by decide, by decide⟩

lemma getD_eq_default {α : Type} (l : List α) (d : α) {i : ℕ} (h : l.length ≤ i) :
    l.getD i d = d := by
  rw [List.getD_eq_getElem?_getD, List.getElem?_eq_none h]
  rfl

lemma list_eq_of_getD (u v : List ℚ) (hl : u.length = v.length)
    (h : ∀ j, u.getD j 0 = v.getD j 0) : u = v := by
  apply List.ext_getElem hl
  intro i h1 h2
  have hi := h i
  simp only [List.getD_eq_getElem?_getD, List.getElem?_eq_getElem h1,
    List.getElem?_eq_getElem h2, Option.getD_some] at hi
  exact hi

lemma dot_congr_single : ∀ (k : ℕ) (u u' v : List ℚ), u'.length = u.length →
    (∀ j, j ≠ k → u'.getD j 0 = u.getD j 0) → v.getD k 0 = 0 →
    dot u' v = dot u v := by
  intro k u u' v
  induction v generalizing k u u' with
  | nil => intro _ _ _; simp [dot]
  | cons c v' ih =>
    intro hlen hdiff hv
    cases u with
    | nil =>
      have hu' : u' = [] := List.length_eq_zero.mp (by simpa using hlen)
      rw [hu']
    | cons a u₁ =>
      cases u' with
      | nil => simp at hlen
      | cons a' u₁' =>
        have hlen' : u₁'.length = u₁.length := by simpa using hlen
        simp only [dot, List.zipWith_cons_cons, List.sum_cons]
        cases k with
        | zero =>
          have hc : c = 0 := by simpa using hv
          have htail : u₁' = u₁ :=
            list_eq_of_getD _ _ hlen' (fun j => by
              have hd := hdiff (j + 1) (Nat.succ_ne_zero j)
              simpa using hd)
          rw [hc, htail, mul_zero, mul_zero]
        | succ j =>
          have hhead : a' = a := by
            have hd := hdiff 0 (by omega)
            simpa using hd
          have htail := ih j u₁ u₁' hlen'
            (fun j' hj' => by
              have hd := hdiff (j' + 1) (by omega)
              simpa using hd)
            (by simpa using hv)
          simp only [dot] at htail
          rw [hhead, htail]

lemma fitVec_getD (c : ℕ) (v : List ℚ) (j : ℕ) :
    (fitVec c v).getD j 0 = if j < c then v.getD j 0 else 0 := by
  by_cases hj : j < c
  · rw [if_pos hj]
    unfold fitVec
    exact getD_range_map _ _ hj
  · rw [if_neg hj]
    refine getD_eq_default _ _ ?_
    rw [fitVec_length]
    exact le_of_not_lt hj

lemma colOf_getD (M : Mat) (j k : ℕ) :
    (colOf M j).getD k 0 = (M.getD k []).getD j 0 := by
  by_cases hk : k < M.length
  · simp [colOf, List.getD_eq_getElem?_getD, List.getElem?_map,
      List.getElem?_eq_getElem hk]
  · have h1 : (colOf M j).length ≤ k := by
      simpa [colOf] using le_of_not_lt hk
    rw [getD_eq_default _ _ h1, getD_eq_default _ _ (le_of_not_lt hk)]
    simp

lemma getD_getD_of_oob {M : Mat} {k : ℕ} (h : M.length ≤ k) (j : ℕ) :
    (M.getD k []).getD j 0 = 0 := by
  rw [getD_eq_default M [] h]
  simp

lemma fitMat_congr {r c : ℕ} {A B : Mat}
    (h : ∀ i j, (A.getD i []).getD j 0 = (B.getD i []).getD j 0) :
    fitMat r c A = fitMat r c B := by
  unfold fitMat fitVec
  apply List.map_congr_left
  intro i _
  apply List.map_congr_left
  intro j _
  exact h i j

lemma analyticLocals_masked (cf cf' : CostFunction)
    (manifolds : List (Option Manifold)) (params : List (List ℚ))
    (jacs jacs' : List Mat) (b k : ℕ) (m : Manifold)
    (hsz : cf'.blockSizes = cf.blockSizes)
    (hrd : cf'.residualDim = cf.residualDim)
    (hm : manifoldAt manifolds b = some m)
    (hrow : ∀ j, ((m.plusJacobian (params.getD b [])).getD k []).getD j 0 = 0)
    (hjb : ∀ i j, j ≠ k → ((jacs'.getD b []).getD i []).getD j 0 =
      ((jacs.getD b []).getD i []).getD j 0)
    (hoth : ∀ b', b' ≠ b → ∀ i j, ((jacs'.getD b' []).getD i []).getD j 0 =
      ((jacs.getD b' []).getD i []).getD j 0) :
    analyticLocals cf' manifolds params jacs' = analyticLocals cf manifolds params jacs := by
  unfold analyticLocals
  rw [hsz]
  apply List.map_congr_left
  intro b' _
  unfold analyticLocalAt analyticAmbientAt
  rw [hsz, hrd]
  by_cases hbb : b' = b
  · subst hbb
    rw [hm]
    simp only [project]
    unfold matMulW fitMat
    rw [List.map_map, List.map_map]
    apply List.map_congr_left
    intro i _
    simp only [Function.comp]
    apply List.map_congr_left
    intro j _
    apply dot_congr_single k
    · rw [fitVec_length, fitVec_length]
    · intro j' hj'
      rw [fitVec_getD, fitVec_getD]
      by_cases hjc : j' < cf.blockSizes.getD b' 0
      · rw [if_pos hjc, if_pos hjc]
        exact hjb i j' hj'
      · rw [if_neg hjc, if_neg hjc]
    · rw [colOf_getD]
      by_cases hk : k < m.ambientSize
      · rw [getD_range_map _ _ hk, fitVec_getD]
        split
        · exact hrow j
        · rfl
      · exact getD_getD_of_oob
          (by rw [List.length_map, List.length_range]; exact le_of_not_lt hk) j
  · rw [fitMat_congr (fun i j => hoth b' hbb i j)]

/-- C6: an analytic-Jacobian error confined to ambient coordinate `k`
of block `b` does not affect the probe outcome when that block's
manifold has a zero `plus_jacobian` row at index `k`: if the unmodified
evaluator's probe passes, the corrupted evaluator's probe passes at the
same tolerance. -/
theorem probe_passes_despite_masked_ambient_error (cf cf' : CostFunction)
    (manifolds : List (Option Manifold)) (params : List (List ℚ)) (tol : ℚ)
    (o : NumericDiffOptions) (b k : ℕ) (m : Manifold) (r r' : List ℚ)
    (jacs jacs' : List Mat)
    (hsz : cf'.blockSizes = cf.blockSizes)
    (hrd : cf'.residualDim = cf.residualDim)
    (hres : ∀ p, evalResiduals cf' p = evalResiduals cf p)
    (heval : cf.eval params = some (r, jacs))
    (heval' : cf'.eval params = some (r', jacs'))
    (hm : manifoldAt manifolds b = some m)
    (hrow : ∀ j, ((m.plusJacobian (params.getD b [])).getD k []).getD j 0 = 0)
    (hjb : ∀ i j, j ≠ k → ((jacs'.getD b []).getD i []).getD j 0 =
      ((jacs.getD b []).getD i []).getD j 0)
    (hoth : ∀ b', b' ≠ b → ∀ i j, ((jacs'.getD b' []).getD i []).getD j 0 =
      ((jacs.getD b' []).getD i []).getD j 0)
    (hpass : (probe cf manifolds params tol o).1 = true) :
    (probe cf' manifolds params tol o).1 = true := by
  have hnum := numericLocalJacobians_ext hsz hrd hres manifolds params o
  cases hn : numericLocalJacobians cf manifolds params o with
  | none =>
    rw [probe_numFail cf manifolds params tol o r jacs heval hn] at hpass
    simp at hpass
  | some numLoc =>
    have hlocals := analyticLocals_masked cf cf' manifolds params jacs jacs' b k m
      hsz hrd hm hrow hjb hoth
    rw [probe_some cf manifolds params tol o r jacs numLoc heval hn] at hpass
    rw [probe_some cf' manifolds params tol o r' jacs' numLoc heval' (hnum.trans hn)]
    rw [hlocals]
    exact hpass

/-- Witness for C6 at the concrete masking example: the error sits in
ambient coordinate 1, the manifold's `plus_jacobian` row 1 is zero, the
clean probe passes and so does the corrupted one. -/
theorem probe_passes_despite_masked_ambient_error_witness :
    (cfMaskBad.blockSizes = cfMask.blockSizes ∧
     cfMaskBad.residualDim = cfMask.residualDim ∧
     (∀ p, evalResiduals cfMaskBad p = evalResiduals cfMask p) ∧
     cfMask.eval pMask = some ([0], [[[1, 0]]]) ∧
     cfMaskBad.eval pMask = some ([0], [[[1, 5]]]) ∧
     manifoldAt [some mMask] 0 = some mMask ∧
     (∀ j, ((mMask.plusJacobian (pMask.getD 0 [])).getD 1 []).getD j 0 = 0) ∧
     (∀ i j, j ≠ 1 → (([[[1, 5]]].getD 0 []).getD i []).getD j 0 =
       (([[[1, 0]]].getD 0 []).getD i []).getD j 0) ∧
     (∀ b', b' ≠ 0 → ∀ i j, (([[[1, 5]]].getD b' []).getD i []).getD j 0 =
       (([[[1, 0]]].getD b' []).getD i []).getD j 0) ∧
     (probe cfMask [some mMask] pMask 0 oLin).1 = true) ∧
    (probe cfMaskBad [some mMask] pMask 0 oLin).1 = true :=
  ⟨⟨rfl, rfl, fun _p => rfl, by decide, by decide, rfl,
    fun j => by
      rcases j with _ | j <;> simp [mMask, pMask],
    fun i j hj => by
      rcases i with _ | i
      · rcases j with _ | j
        · rfl
        · rcases j with _ | j
          · exact absurd rfl hj
          · simp
      · simp,
    fun b' hb' i j => by
      rcases b' with _ | b'
      · exact absurd rfl hb'
      · simp,
    by decide⟩,
   probe_passes_despite_masked_ambient_error cfMask cfMaskBad [some mMask] pMask 0
     oLin 0 1 mMask [0] [0] [[[1, 0]]] [[[1, 5]]] rfl rfl (fun _p => rfl)
     (by decide) (by decide) rfl
     (fun j => by rcases j with _ | j <;> simp [mMask, pMask])
     (fun i j hj => by
       rcases i with _ | i
       · rcases j with _ | j
         · rfl
         · rcases j with _ | j
           · exact absurd rfl hj
           · simp
       · simp)
     (fun b' hb' i j => by
       rcases b' with _ | b'
       · exact absurd rfl hb'
       · simp)
     (by decide)⟩

end GradCheck
